import Mathlib

/-!
Verification development for the Reusable-Data-Table view pipeline
(`DataTable.tsx`): global search, per-column multi-condition filters,
type-aware sorting via `compareValues`, pagination, and row selection
(`toggleRowSelection`).

Modelling conventions (shallow embedding of the TypeScript source):
* Cell values are optional strings (`Row := List (String × String)` with
  first-match lookup), matching the CSV-sourced `Record<string, string>`
  data; a missing key models JavaScript `undefined`.
* JavaScript numbers are modelled by `ℚ`; `parseFloat` is modelled by
  `parseFloatQ`, which follows the ECMAScript decimal grammar (leading
  whitespace, sign, digits, fraction, `e`/`E` exponent) and returns `none`
  for NaN.  The `Infinity` literal and float rounding/overflow are not
  modelled (`ℚ` is exact and has no infinities).
* `String.prototype.toLowerCase` is modelled as ASCII lowercasing
  (`jsLower`); `localeCompare` as code-point lexicographic comparison
  returning -1/0/1 (`localeCompareQ`).
* `Date.parse` is modelled on its ISO `YYYY-MM-DD` subset
  (`dateParseMs`, milliseconds since the Unix epoch); unparseable input
  gives `none` (NaN).  No claim depends on its exact values.
* JavaScript `Set` (insertion-ordered) is modelled as a duplicate-free
  `List Nat` in insertion order; `Array.from(s).pop()` is `getLast?`.
* All modelled functions are total, reflecting that the pipeline never
  throws on malformed data.
-/

/-- ASCII digit test, the `[0-9]` character class of the source's regexes. -/
def isDigitB (c : Char) : Bool := '0' ≤ c && c ≤ '9'

/-- ASCII lowercasing of one character, modelling `toLowerCase` on the
character sets the pipeline inspects. -/
def lowerChar (c : Char) : Char :=
  if 'A' ≤ c && c ≤ 'Z' then Char.ofNat (c.toNat + 32) else c

/-- Models JavaScript `String.prototype.toLowerCase` (ASCII range). -/
def jsLower (s : String) : String := String.mk (s.toList.map lowerChar)

/-- `l` starts with `p` (models `String.prototype.startsWith`). -/
def startsB : List Char → List Char → Bool
  | [], _ => true
  | _ :: _, [] => false
  | a :: as, b :: bs => a = b && startsB as bs

/-- `l` contains `p` as a contiguous run (models `String.prototype.includes`). -/
def inclB (p : List Char) : List Char → Bool
  | [] => startsB p []
  | c :: cs => startsB p (c :: cs) || inclB p cs

/-- `l` ends with `p` (models `String.prototype.endsWith`). -/
def endsB (p l : List Char) : Bool := startsB p.reverse l.reverse

/-- Models `String(x ?? "")`: stringify a possibly-missing cell value with
empty-string default. -/
def strOfCell (v : Option String) : String := v.getD ""

/-- Models the bare `String(x)` coercion: JavaScript stringifies `undefined`
to `"undefined"`. -/
def jsStr (v : Option String) : String := v.getD "undefined"

/-- Models `.replace(/[^0-9.-]/g, "")`: keep only digits, `.` and `-`. -/
def stripNumeric (s : String) : String :=
  String.mk (s.toList.filter (fun c => isDigitB c || c = '.' || c = '-'))

/-- Code-point lexicographic comparison of character lists. -/
def lexCmp : List Char → List Char → Ordering
  | [], [] => .eq
  | [], _ :: _ => .lt
  | _ :: _, [] => .gt
  | a :: as, b :: bs =>
    if a.toNat < b.toNat then .lt
    else if b.toNat < a.toNat then .gt
    else lexCmp as bs

/-- Models `a.localeCompare(b)` as code-point comparison yielding -1/0/1
(the host's locale table is not modelled; only the sign is ever used). -/
def localeCompareQ (a b : String) : ℚ :=
  match lexCmp a.toList b.toList with
  | .lt => -1
  | .eq => 0
  | .gt => 1

/-- JavaScript `StrWhiteSpace` characters (ASCII portion). -/
def isWsB (c : Char) : Bool :=
  c = ' ' || c = '\t' || c = '\n' || c = '\r' || c = '\x0b' || c = '\x0c'

/-- Digit run to a natural number. -/
def digitsToNat (ds : List Char) : Nat :=
  ds.foldl (fun a c => 10 * a + (c.toNat - 48)) 0

/-- The digit run of an exponent with its sign applied; 0 when the digit run
is empty (a malformed exponent is not consumed, matching `parseFloat`'s
longest-valid-prefix rule). -/
def expDigits (r : List Char) (sgn : Int) : Int :=
  let ds := r.takeWhile isDigitB
  if ds.isEmpty then 0 else sgn * (digitsToNat ds : Int)

/-- Exponent part of the ECMAScript decimal grammar: `e`/`E`, optional sign,
digits. -/
def parseExpPart (cs : List Char) : Int :=
  match cs with
  | [] => 0
  | c :: rest =>
    if c = 'e' ∨ c = 'E' then
      match rest with
      | [] => 0
      | s :: r =>
        if s = '+' then expDigits r 1
        else if s = '-' then expDigits r (-1)
        else expDigits rest 1
    else 0

/-- Mantissa digits (integer part `ip`, fraction part `fp`) and a decimal
exponent assembled into the rational `mantissa * 10 ^ (e - |fp|)`, built
with `mkRat` so that it evaluates by kernel reduction. -/
def assembleFloat (ip fp : List Char) (e : Int) : ℚ :=
  let m : Int := digitsToNat (ip ++ fp)
  let e' : Int := e - (fp.length : Int)
  if 0 ≤ e' then mkRat (m * 10 ^ e'.toNat) 1 else mkRat m (10 ^ (-e').toNat)

/-- Unsigned part of the `parseFloat` grammar: `digits [. digits] [exp]`
or `. digits [exp]`; `none` when no valid prefix exists (NaN). -/
def parseFloatCore (cs : List Char) : Option ℚ :=
  let ip := cs.takeWhile isDigitB
  let r1 := cs.dropWhile isDigitB
  match r1 with
  | [] => if ip.isEmpty then none else some (assembleFloat ip [] 0)
  | c :: r2 =>
    if c = '.' then
      let fp := r2.takeWhile isDigitB
      if ip.isEmpty && fp.isEmpty then none
      else some (assembleFloat ip fp (parseExpPart (r2.dropWhile isDigitB)))
    else if ip.isEmpty then none
    else some (assembleFloat ip [] (parseExpPart (c :: r2)))

/-- Models JavaScript `parseFloat`: skip leading whitespace, optional sign,
then the longest decimal-literal prefix; `none` models NaN.  The `Infinity`
literal is not modelled (see module docstring). -/
def parseFloatQ (s : String) : Option ℚ :=
  match s.toList.dropWhile isWsB with
  | [] => none
  | c :: r =>
    if c = '-' then (parseFloatCore r).map Neg.neg
    else if c = '+' then parseFloatCore r
    else parseFloatCore (c :: r)

/-- Days from the Unix epoch to civil date `y-m-d` (proleptic Gregorian). -/
def daysFromCivil (y : Int) (m d : Nat) : Int :=
  let y' : Int := if m ≤ 2 then y - 1 else y
  let era : Int := (if 0 ≤ y' then y' else y' - 399) / 400
  let yoe : Int := y' - era * 400
  let mp : Int := if m > 2 then (m : Int) - 3 else (m : Int) + 9
  let doy : Int := (153 * mp + 2) / 5 + (d : Int) - 1
  let doe : Int := yoe * 365 + yoe / 4 - yoe / 100 + doy
  era * 146097 + doe - 719468

/-- Models `Date.parse` on its ISO `YYYY-MM-DD` subset: milliseconds since
the Unix epoch, `none` for anything else (NaN). -/
def dateParseMs (s : String) : Option Int :=
  match s.splitOn "-" with
  | [ys, ms, ds] =>
    if ys.toList.length = 4 && ys.toList.all isDigitB
        && ms.toList.length = 2 && ms.toList.all isDigitB
        && ds.toList.length = 2 && ds.toList.all isDigitB then
      let m := digitsToNat ms.toList
      let d := digitsToNat ds.toList
      if 1 ≤ m && m ≤ 12 && 1 ≤ d && d ≤ 31 then
        some (daysFromCivil (digitsToNat ys.toList) m d * 86400000)
      else none
    else none
  | _ => none

/-- The column `format.type` variants of the configuration. -/
inductive FormatType
  | text
  | number
  | date
  | currency
deriving DecidableEq, Repr

/-- The `Operator` union type of one filter condition. -/
inductive Operator
  | contains
  | equals
  | starts
  | ends
  | gt
  | lt
deriving DecidableEq, Repr

/-- One filter condition `{ op, value }`. -/
structure FilterCondition where
  op : Operator
  value : String
deriving DecidableEq, Repr

/-- A `ColumnConfig` entry.  `render` and `width` are rendering-only and
omitted; of the `format` object only `type` is read by the pipeline. -/
structure ColumnConfig where
  key : String
  header : Option String := none
  visible : Option Bool := none
  searchable : Bool := false
  sortable : Bool := false
  filterable : Bool := false
  format : Option FormatType := none
deriving DecidableEq, Repr

/-- Sort direction (`"asc" | "desc"`; `null` is `Option.none` around it). -/
inductive SortDir
  | asc
  | desc
deriving DecidableEq, Repr

/-- The `sortState` record `{ key, dir }`. -/
structure SortState where
  key : String
  dir : Option SortDir
deriving DecidableEq, Repr

/-- A data row: field key to string value, first-match lookup, a missing
key modelling `undefined`. -/
abbrev Row := List (String × String)

/-- Models `row[k]` property lookup. -/
def Row.get (r : Row) (k : String) : Option String :=
  (r.find? (fun p => p.1 = k)).map (fun p => p.2)

/-- The `columnVisible` state map; a key absent from the map is falsy. -/
abbrev VisMap := List (String × Bool)

/-- Models `columnVisible[k]` truthiness. -/
def visLookup (m : VisMap) (k : String) : Bool :=
  ((m.find? (fun p => p.1 = k)).map (fun p => p.2)).getD false

/-- `visibleColumns = config.columns.filter(c => columnVisible[c.key])`. -/
def visibleColumns (cols : List ColumnConfig) (vis : VisMap) : List ColumnConfig :=
  cols.filter (fun c => visLookup vis c.key)

/-- `compareValues(a, b, type)` from `DataTable.tsx`: numeric difference for
`number`/`currency` (lexical fallback when either side parses to NaN),
epoch-defaulted time difference for `date`, code-point/locale comparison
otherwise. -/
def compareValues (a b : Option String) (t : Option FormatType) : ℚ :=
  if t = some .number || t = some .currency then
    match parseFloatQ (stripNumeric (jsStr a)), parseFloatQ (stripNumeric (jsStr b)) with
    | some na, some nb => na - nb
    | some _, none => localeCompareQ (jsStr a) (jsStr b)
    | none, _ => localeCompareQ (jsStr a) (jsStr b)
  else if t = some .date then
    (((dateParseMs (jsStr a)).getD 0 - (dateParseMs (jsStr b)).getD 0 : Int) : ℚ)
  else
    localeCompareQ (jsStr a) (jsStr b)

/-- `applyFilterCondition(value, cond)`: both sides are lowercased, then the
operator decides; `gt`/`lt` go through `parseFloat` on the lowercased sides
(NaN on either side makes the comparison false). -/
def applyFilterCondition (value : String) (cond : FilterCondition) : Bool :=
  let left := jsLower value
  let right := jsLower cond.value
  match cond.op with
  | .contains => inclB right.toList left.toList
  | .equals => left = right
  | .starts => startsB right.toList left.toList
  | .ends => endsB right.toList left.toList
  | .gt =>
    match parseFloatQ left, parseFloatQ right with
    | some a, some b => a > b
    | _, _ => false
  | .lt =>
    match parseFloatQ left, parseFloatQ right with
    | some a, some b => a < b
    | _, _ => false

/-- The predicate of the search stage's `rows.filter`: some visible,
searchable column's stringified cell contains the (already lowercased)
term. -/
def searchPred (term : String) (cols : List ColumnConfig) (vis : VisMap) (r : Row) : Bool :=
  (visibleColumns cols vis).any (fun col =>
    col.searchable && inclB term.toList (jsLower (strOfCell (r.get col.key))).toList)

/-- The search stage of `filteredRows`: a no-op for the empty (falsy)
debounced term, otherwise `rows.filter(searchPred)`. -/
def searchStage (term : String) (cols : List ColumnConfig) (vis : VisMap)
    (rows : List Row) : List Row :=
  if term = "" then rows else rows.filter (searchPred term cols vis)

/-- The inner predicate of one `columnFilters` entry: some condition of the
column matches the row's stringified cell. -/
def colFilterPred (kc : String × List FilterCondition) (row : Row) : Bool :=
  kc.2.any (fun cond => applyFilterCondition (strOfCell (row.get kc.1)) cond)

/-- The per-column filter stage of `filteredRows`: `Object.entries(columnFilters)`
iterated in insertion order, each non-empty condition list narrowing `rows`. -/
def filterStage (filters : List (String × List FilterCondition))
    (rows : List Row) : List Row :=
  filters.foldl
    (fun rs kc => if kc.2.isEmpty then rs else rs.filter (colFilterPred kc))
    rows

/-- The comparator closure passed to `rows.sort`: `compareValues` on the sort
column's cells and declared format type, negated for `desc`. -/
def sortCmp (cols : List ColumnConfig) (key : String) (dir : SortDir)
    (a b : Row) : ℚ :=
  let col := cols.find? (fun c => c.key = key)
  let cmp := compareValues (a.get key) (b.get key) (col.bind (fun c => c.format))
  match dir with
  | .asc => cmp
  | .desc => -cmp

/-- The sort stage of `filteredRows`: skipped unless `sortState.key` and
`sortState.dir` are both truthy; modelled as a stable sort placing `a` before
`b` when the comparator is non-positive (ECMAScript `Array.prototype.sort` is
stable). -/
def sortStage (st : SortState) (cols : List ColumnConfig) (rows : List Row) : List Row :=
  match st.dir with
  | none => rows
  | some d =>
    if st.key = "" then rows
    else rows.mergeSort (fun a b => sortCmp cols st.key d a b ≤ 0)

/-- `filteredRows` from `DataTable.tsx`: copy of `data`, search stage, filter
stage, sort stage, in that order. -/
def filteredRows (data : List Row) (term : String) (cols : List ColumnConfig)
    (vis : VisMap) (filters : List (String × List FilterCondition))
    (st : SortState) : List Row :=
  sortStage st cols (filterStage filters (searchStage term cols vis data))

/-- `totalPages = Math.max(1, Math.ceil(totalRows / pageSize))` (natural
ceiling division). -/
def totalPagesCalc (totalRows pageSize : Nat) : Nat :=
  max 1 ((totalRows + pageSize - 1) / pageSize)

/-- The reactive clamp of the `useEffect`: `if (page > totalPages)
setPage(totalPages)`. -/
def clampPageEffect (page tp : Nat) : Nat :=
  if page > tp then tp else page

/-- The page-number input handler: `Math.min(Math.max(1, raw), totalPages)`. -/
def setPageFromInput (raw : Int) (tp : Nat) : Nat :=
  (min (tp : Int) (max 1 raw)).toNat

/-- `pageRows`: `filteredRows.slice(start, start + pageSize)` with
`start = (page - 1) * pageSize`. -/
def pageRowsCalc (rows : List Row) (page pageSize : Nat) : List Row :=
  (rows.drop ((page - 1) * pageSize)).take pageSize

/-- The five pipeline inputs plus pagination state. -/
structure ViewInput where
  data : List Row
  columns : List ColumnConfig
  columnVisible : VisMap
  debouncedSearch : String
  columnFilters : List (String × List FilterCondition)
  sortState : SortState
  page : Nat
  pageSize : Nat
deriving DecidableEq

/-- One full evaluation of the view pipeline: the emitted page of rows, the
total filtered row count, and the total page count. -/
def viewResult (i : ViewInput) : List Row × Nat × Nat :=
  let fr := filteredRows i.data i.debouncedSearch i.columns i.columnVisible
    i.columnFilters i.sortState
  (pageRowsCalc fr i.page i.pageSize, fr.length,
    totalPagesCalc fr.length i.pageSize)

/-- Insertion-ordered `Set.add` of every index of `[lo, hi]` (the `for` loop
of the shift branch). -/
def rangeAdd (s : List Nat) (lo hi : Nat) : List Nat :=
  (List.range' lo (hi + 1 - lo)).foldl
    (fun acc i => if i ∈ acc then acc else acc ++ [i]) s

/-- `toggleRowSelection(indexInPage, event)` over the insertion-ordered
selection list: shift-range when the set is non-empty, ctrl/meta membership
toggle, otherwise plain replace-with-singleton (clearing when the clicked row
is the sole selection). -/
def toggleRowSelection (page pageSize indexInPage : Nat)
    (shift ctrl meta : Bool) (prev : List Nat) : List Nat :=
  let globalIndex := (page - 1) * pageSize + indexInPage
  if shift && !prev.isEmpty then
    let last := prev.getLast?.getD globalIndex
    let start := min last globalIndex
    let stop := max last globalIndex
    rangeAdd prev start stop
  else if ctrl || meta then
    if globalIndex ∈ prev then prev.erase globalIndex else prev ++ [globalIndex]
  else
    if globalIndex ∈ prev && prev.length = 1 then []
    else [globalIndex]

/-- A store of JavaScript arrays, addressed by allocation index, used to make
the aliasing behaviour of `filteredRows` explicit: `data.slice()` allocates a
fresh array, `Array.prototype.filter` allocates a fresh array, and
`Array.prototype.sort` writes in place. -/
structure Mem where
  arrays : List (List Row)

/-- Read the array at address `a`. -/
def Mem.read (m : Mem) (a : Nat) : List Row := m.arrays.getD a []

/-- Overwrite the array at address `a` (in-place mutation). -/
def Mem.write (m : Mem) (a : Nat) (v : List Row) : Mem := ⟨m.arrays.set a v⟩

/-- Allocate a fresh array holding `v`; returns the new store and the fresh
address. -/
def Mem.alloc (m : Mem) (v : List Row) : Mem × Nat :=
  (⟨m.arrays ++ [v]⟩, m.arrays.length)

/-- One `Object.entries(columnFilters)` iteration with its array effect: a
non-empty condition list rebinds `rows` to the freshly allocated result of
`rows.filter(...)`. -/
def filterEntryMem (p : Mem × Nat) (kc : String × List FilterCondition) :
    Mem × Nat :=
  if kc.2.isEmpty then p
  else p.1.alloc ((p.1.read p.2).filter (colFilterPred kc))

/-- The search stage with its array effect: a non-empty term rebinds `rows`
to the freshly allocated result of `rows.filter(...)`. -/
def searchStepMem (p : Mem × Nat) (term : String) (cols : List ColumnConfig)
    (vis : VisMap) : Mem × Nat :=
  if term = "" then p
  else p.1.alloc ((p.1.read p.2).filter (searchPred term cols vis))

/-- The sort stage with its array effect: when taken, `rows.sort(...)`
mutates the current `rows` array in place. -/
def sortStepMem (p : Mem × Nat) (st : SortState) (cols : List ColumnConfig) :
    Mem × Nat :=
  match st.dir with
  | none => p
  | some d =>
    if st.key = "" then p
    else (p.1.write p.2
      ((p.1.read p.2).mergeSort (fun a b => sortCmp cols st.key d a b ≤ 0)),
      p.2)

/-- `filteredRows` with its array effects explicit: `data.slice()` copies into
a fresh array; each taken `rows = rows.filter(...)` rebinds `rows` to a fresh
array; `rows.sort(...)` mutates the current `rows` array in place.  Returns
the final store and the address the local `rows` holds at `return rows`. -/
def filteredRowsMem (m : Mem) (dataAddr : Nat) (term : String)
    (cols : List ColumnConfig) (vis : VisMap)
    (filters : List (String × List FilterCondition)) (st : SortState) :
    Mem × Nat :=
  sortStepMem
    (filters.foldl filterEntryMem
      (searchStepMem (m.alloc (m.read dataAddr)) term cols vis))
    st cols

/-- Addresses below `n` (in particular the caller's `data` array) read the
same in `p`'s store as in `m`, and both the store size and the current
`rows` address of `p` are at least `n`. -/
def MemPres (m : Mem) (n : Nat) (p : Mem × Nat) : Prop :=
  n ≤ p.1.arrays.length ∧ n ≤ p.2 ∧ ∀ a, a < n → p.1.read a = m.read a

/-- A small concrete row family used for the concrete pagination example. -/
def exRow (k : Nat) : Row := [("i", toString k)]

/-- Seven concrete rows, the `totalFilteredRows = 7` example collection. -/
def exRows7 : List Row := (List.range 7).map exRow

/-! ### Character-level facts about ASCII lowercasing -/

theorem char_le_iff (a c : Char) : a ≤ c ↔ a.toNat ≤ c.toNat := by
  rw [Char.le_def, UInt32.le_def]
  exact BitVec.le_def

theorem char_eq_iff (a c : Char) : a = c ↔ a.toNat = c.toNat := by
  constructor
  · intro h
    rw [h]
  · intro h
    exact Char.ext (UInt32.ext h)

theorem toNat_charOfNat_of_valid (n : Nat) (h : n < 55296) :
    (Char.ofNat n).toNat = n := by
  have hv : n.isValidChar := Or.inl h
  simp [Char.ofNat, hv, Char.ofNatAux, Char.toNat, UInt32.toNat, BitVec.toNat_ofNatLt]

theorem toNat_lowerChar (c : Char) :
    (lowerChar c).toNat =
      if 65 ≤ c.toNat ∧ c.toNat ≤ 90 then c.toNat + 32 else c.toNat := by
  unfold lowerChar
  have key : ('A' ≤ c && c ≤ 'Z') = true ↔ (65 ≤ c.toNat ∧ c.toNat ≤ 90) := by
    rw [Bool.and_eq_true, decide_eq_true_iff, decide_eq_true_iff]
    exact and_congr (char_le_iff 'A' c) (char_le_iff c 'Z')
  by_cases h : 65 ≤ c.toNat ∧ c.toNat ≤ 90
  · rw [if_pos (key.mpr h), if_pos h, toNat_charOfNat_of_valid _ (by omega)]
  · rw [if_neg (fun hc => h (key.mp hc)), if_neg h]

theorem isDigitB_toNat (c : Char) :
    isDigitB c = decide (48 ≤ c.toNat ∧ c.toNat ≤ 57) := by
  unfold isDigitB
  rw [Bool.decide_and]
  have h1 : decide ('0' ≤ c) = decide (48 ≤ c.toNat) :=
    decide_eq_decide.mpr (char_le_iff '0' c)
  have h2 : decide (c ≤ '9') = decide (c.toNat ≤ 57) :=
    decide_eq_decide.mpr (char_le_iff c '9')
  rw [h1, h2]

theorem isWsB_toNat (c : Char) :
    isWsB c = decide (c.toNat = 32 ∨ c.toNat = 9 ∨ c.toNat = 10 ∨
      c.toNat = 13 ∨ c.toNat = 11 ∨ c.toNat = 12) := by
  unfold isWsB
  rw [Bool.decide_or, Bool.decide_or, Bool.decide_or, Bool.decide_or, Bool.decide_or]
  rw [decide_eq_decide.mpr (char_eq_iff c ' '), decide_eq_decide.mpr (char_eq_iff c '\t'),
    decide_eq_decide.mpr (char_eq_iff c '\n'), decide_eq_decide.mpr (char_eq_iff c '\r'),
    decide_eq_decide.mpr (char_eq_iff c '\x0b'), decide_eq_decide.mpr (char_eq_iff c '\x0c')]
  simp only [show (' ').toNat = 32 from by decide, show ('\t').toNat = 9 from by decide,
    show ('\n').toNat = 10 from by decide, show ('\r').toNat = 13 from by decide,
    show ('\x0b').toNat = 11 from by decide, show ('\x0c').toNat = 12 from by decide,
    Bool.or_assoc]
  all_goals infer_instance

theorem isDigitB_lowerChar (c : Char) : isDigitB (lowerChar c) = isDigitB c := by
  rw [isDigitB_toNat, isDigitB_toNat, toNat_lowerChar]
  by_cases h : 65 ≤ c.toNat ∧ c.toNat ≤ 90
  · rw [if_pos h]
    exact decide_eq_decide.mpr (by omega)
  · rw [if_neg h]

theorem isWsB_lowerChar (c : Char) : isWsB (lowerChar c) = isWsB c := by
  rw [isWsB_toNat, isWsB_toNat, toNat_lowerChar]
  by_cases h : 65 ≤ c.toNat ∧ c.toNat ≤ 90
  · rw [if_pos h]
    exact decide_eq_decide.mpr (by omega)
  · rw [if_neg h]

theorem lowerChar_eq_self_of_digit (c : Char) (h : isDigitB c = true) :
    lowerChar c = c := by
  rw [isDigitB_toNat, decide_eq_true_iff] at h
  rw [char_eq_iff, toNat_lowerChar, if_neg (by omega)]

theorem lowerChar_eq_iff (c k : Char) (hk : k.toNat < 65) :
    lowerChar c = k ↔ c = k := by
  rw [char_eq_iff, char_eq_iff c k, toNat_lowerChar]
  by_cases h : 65 ≤ c.toNat ∧ c.toNat ≤ 90
  · rw [if_pos h]
    omega
  · rw [if_neg h]

theorem lowerChar_eq_e_iff (c : Char) :
    (lowerChar c = 'e' ∨ lowerChar c = 'E') ↔ (c = 'e' ∨ c = 'E') := by
  rw [char_eq_iff, char_eq_iff, char_eq_iff c, char_eq_iff c, toNat_lowerChar]
  have he : ('e').toNat = 101 := by decide
  have hE : ('E').toNat = 69 := by decide
  rw [he, hE]
  by_cases h : 65 ≤ c.toNat ∧ c.toNat ≤ 90
  · rw [if_pos h]
    omega
  · rw [if_neg h]

/-! ### `parseFloat` is insensitive to ASCII lowercasing -/

theorem toList_mk (l : List Char) : (String.mk l).toList = l := rfl

theorem map_lowerChar_digits (l : List Char) (h : ∀ c ∈ l, isDigitB c = true) :
    l.map lowerChar = l := by
  induction l with
  | nil => rfl
  | cons a t ih =>
    rw [List.map_cons, lowerChar_eq_self_of_digit a (h a (by simp)),
      ih (fun c hc => h c (by simp [hc]))]

theorem takeWhile_digits_map (l : List Char) :
    (l.map lowerChar).takeWhile isDigitB = l.takeWhile isDigitB := by
  rw [List.takeWhile_map]
  have hp : (isDigitB ∘ lowerChar) = isDigitB := funext isDigitB_lowerChar
  rw [hp]
  exact map_lowerChar_digits _ (fun c hc => List.mem_takeWhile_imp hc)

theorem dropWhile_digits_map (l : List Char) :
    (l.map lowerChar).dropWhile isDigitB = (l.dropWhile isDigitB).map lowerChar := by
  rw [List.dropWhile_map]
  have hp : (isDigitB ∘ lowerChar) = isDigitB := funext isDigitB_lowerChar
  rw [hp]

theorem dropWhile_ws_map (l : List Char) :
    (l.map lowerChar).dropWhile isWsB = (l.dropWhile isWsB).map lowerChar := by
  rw [List.dropWhile_map]
  have hp : (isWsB ∘ lowerChar) = isWsB := funext isWsB_lowerChar
  rw [hp]

theorem expDigits_map (l : List Char) (sgn : Int) :
    expDigits (l.map lowerChar) sgn = expDigits l sgn := by
  unfold expDigits
  rw [takeWhile_digits_map]

theorem parseExpPart_map (cs : List Char) :
    parseExpPart (cs.map lowerChar) = parseExpPart cs := by
  cases cs with
  | nil => rfl
  | cons c rest =>
    rw [List.map_cons]
    unfold parseExpPart
    simp only [lowerChar_eq_e_iff]
    by_cases h : c = 'e' ∨ c = 'E'
    · rw [if_pos h, if_pos h]
      cases rest with
      | nil => rfl
      | cons s r =>
        rw [List.map_cons]
        simp only [lowerChar_eq_iff s '+' (by decide), lowerChar_eq_iff s '-' (by decide)]
        by_cases h1 : s = '+'
        · rw [if_pos h1, if_pos h1, expDigits_map]
        · rw [if_neg h1, if_neg h1]
          by_cases h2 : s = '-'
          · rw [if_pos h2, if_pos h2, expDigits_map]
          · rw [if_neg h2, if_neg h2, ← List.map_cons, expDigits_map]
    · rw [if_neg h, if_neg h]

theorem parseFloatCore_map (cs : List Char) :
    parseFloatCore (cs.map lowerChar) = parseFloatCore cs := by
  unfold parseFloatCore
  rw [takeWhile_digits_map, dropWhile_digits_map]
  cases hd : cs.dropWhile isDigitB with
  | nil => rfl
  | cons c r2 =>
    rw [List.map_cons]
    simp only [lowerChar_eq_iff c '.' (by decide)]
    by_cases h : c = '.'
    · rw [if_pos h, if_pos h, takeWhile_digits_map, dropWhile_digits_map, parseExpPart_map]
    · rw [if_neg h, if_neg h, ← List.map_cons, parseExpPart_map]

theorem parseFloatQ_jsLower (s : String) : parseFloatQ (jsLower s) = parseFloatQ s := by
  unfold parseFloatQ jsLower
  rw [toList_mk, dropWhile_ws_map]
  cases hd : s.toList.dropWhile isWsB with
  | nil => rfl
  | cons c r =>
    rw [List.map_cons]
    simp only [lowerChar_eq_iff c '-' (by decide), lowerChar_eq_iff c '+' (by decide)]
    by_cases h1 : c = '-'
    · rw [if_pos h1, if_pos h1, parseFloatCore_map]
    · rw [if_neg h1, if_neg h1]
      by_cases h2 : c = '+'
      · rw [if_pos h2, if_pos h2, parseFloatCore_map]
      · rw [if_neg h2, if_neg h2, ← List.map_cons, parseFloatCore_map]

/-! ### Claim theorems -/

/-- C1: for every fixed tuple of pipeline inputs (record collection, column
configuration, search term, per-column filter map, sort state, page,
pageSize), evaluating the view pipeline twice yields identical output row
sequences, total filtered row count, and total page count. -/
theorem viewResult_deterministic (i j : ViewInput) (h : i = j) :
    viewResult i = viewResult j :=
  congrArg viewResult h

theorem viewResult_deterministic_witness :
    viewResult ⟨[[("a", "1")]], [{ key := "a", searchable := true }],
        [("a", true)], "", [], ⟨"", none⟩, 1, 5⟩ =
      viewResult ⟨[[("a", "1")]], [{ key := "a", searchable := true }],
        [("a", true)], "", [], ⟨"", none⟩, 1, 5⟩ :=
  viewResult_deterministic _ _ rfl

/-- C5: with sort direction `none` the sort stage returns the rows unchanged,
and the `desc` comparator value for any pair of rows is the exact arithmetic
negation of the `asc` comparator value for that pair. -/
theorem sortStage_none_id_desc_neg :
    (∀ (rows : List Row) (key : String) (cols : List ColumnConfig),
        sortStage ⟨key, none⟩ cols rows = rows) ∧
    (∀ (cols : List ColumnConfig) (key : String) (a b : Row),
        sortCmp cols key SortDir.desc a b = -(sortCmp cols key SortDir.asc a b)) :=
  ⟨fun _ _ _ => rfl, fun _ _ _ _ => rfl⟩

/-- C6: for `number`/`currency` format, `compareValues` strips each side to
digits, `.` and `-`, parses both as floating-point, returns the numeric
difference when both parse, and otherwise falls back to case-sensitive
lexical comparison of the original string representations. -/
theorem compareValues_numeric_spec (a b : Option String) (t : Option FormatType)
    (h : t = some FormatType.number ∨ t = some FormatType.currency) :
    compareValues a b t =
      match parseFloatQ (stripNumeric (jsStr a)), parseFloatQ (stripNumeric (jsStr b)) with
      | some na, some nb => na - nb
      | some _, none => localeCompareQ (jsStr a) (jsStr b)
      | none, _ => localeCompareQ (jsStr a) (jsStr b) := by
  rcases h with h | h <;> subst h <;> rfl

theorem compareValues_numeric_spec_witness :
    compareValues (some "$12.50") (some "$3") (some FormatType.number) = 19 / 2 := by
  rw [compareValues_numeric_spec _ _ _ (Or.inl rfl)]
  have h1 : parseFloatQ (stripNumeric (jsStr (some "$12.50"))) = some (mkRat 25 2) := by
    decide
  have h2 : parseFloatQ (stripNumeric (jsStr (some "$3"))) = some (mkRat 3 1) := by
    decide
  rw [h1, h2]
  show mkRat 25 2 - mkRat 3 1 = 19 / 2
  norm_num [Rat.mkRat_eq_div]

/-- C7: evaluating a filter condition is total and never throws; every
operator except `gt`/`lt` compares the lowercased string forms of both
sides, while `gt`/`lt` parse both sides as floating-point — equivalently to
parsing the original, un-lowercased sides — and a NaN parse on either side
makes the condition false. -/
theorem applyFilterCondition_spec (value : String) (cond : FilterCondition) :
    applyFilterCondition value cond =
      match cond.op with
      | .contains => inclB (jsLower cond.value).toList (jsLower value).toList
      | .equals => decide (jsLower value = jsLower cond.value)
      | .starts => startsB (jsLower cond.value).toList (jsLower value).toList
      | .ends => endsB (jsLower cond.value).toList (jsLower value).toList
      | .gt =>
        match parseFloatQ value, parseFloatQ cond.value with
        | some a, some b => decide (a > b)
        | _, _ => false
      | .lt =>
        match parseFloatQ value, parseFloatQ cond.value with
        | some a, some b => decide (a < b)
        | _, _ => false := by
  obtain ⟨op, v⟩ := cond
  cases op with
  | contains => rfl
  | equals => rfl
  | starts => rfl
  | ends => rfl
  | gt => simp only [applyFilterCondition, parseFloatQ_jsLower]
  | lt => simp only [applyFilterCondition, parseFloatQ_jsLower]

/-- C10: a shift-modified click on an empty selection set behaves exactly
like a plain click, yielding the singleton of the clicked global index (the
range branch requires a non-empty set). -/
theorem toggleRowSelection_shift_empty (page ps idx : Nat) (ctrl meta : Bool) :
    toggleRowSelection page ps idx true ctrl meta [] = [(page - 1) * ps + idx] ∧
    toggleRowSelection page ps idx true ctrl meta [] =
      toggleRowSelection page ps idx false false false [] := by
  cases ctrl <;> cases meta <;> exact ⟨rfl, rfl⟩

/-- C2: a row passes the filter stage iff, for every column entry with at
least one condition, some condition of that entry matches the row's value
(OR within a column, AND across columns); an entry with zero conditions
imposes no constraint. -/
theorem filterStage_or_and_law (filters : List (String × List FilterCondition))
    (rows : List Row) (r : Row) :
    r ∈ filterStage filters rows ↔
      r ∈ rows ∧ ∀ kc ∈ filters, kc.2 ≠ [] →
        ∃ c ∈ kc.2, applyFilterCondition (strOfCell (r.get kc.1)) c = true := by
  induction filters generalizing rows with
  | nil => simp [filterStage]
  | cons kc rest ih =>
    have hstep : filterStage (kc :: rest) rows =
        filterStage rest (if kc.2.isEmpty then rows else rows.filter (colFilterPred kc)) := rfl
    rw [hstep, ih, List.forall_mem_cons]
    by_cases hkc : kc.2.isEmpty
    · have hnil : kc.2 = [] := List.isEmpty_iff.mp hkc
      rw [if_pos hkc]
      simp [hnil]
    · have hne : kc.2 ≠ [] := fun h => hkc (List.isEmpty_iff.mpr h)
      rw [if_neg hkc]
      rw [List.mem_filter]
      unfold colFilterPred
      rw [List.any_eq_true]
      constructor
      · rintro ⟨⟨hr, hc⟩, hrest⟩
        exact ⟨hr, fun _ => hc, hrest⟩
      · rintro ⟨hr, hc, hrest⟩
        exact ⟨⟨hr, hc hne⟩, hrest⟩

/-- C3 counterexample: a column marked `searchable` but currently hidden
contains the term, yet the row is dropped by the search stage — the code
searches only visible searchable columns. -/
theorem searchStage_hidden_searchable_cex :
    searchStage "x" [{ key := "a", searchable := true }] [("a", false)]
        [[("a", "x1")]] = [] ∧
    ColumnConfig.searchable { key := "a", searchable := true } = true ∧
    inclB "x".toList (jsLower (strOfCell (Row.get [("a", "x1")] "a"))).toList = true ∧
    ("x" : String) ≠ "" := by
  refine ⟨rfl, rfl, rfl, ?_⟩
  decide

/-- C3 (amended): for a non-empty effective term, a row survives the search
stage iff some column that is both marked `searchable` and currently visible
contains the term as a case-insensitive substring of its string
representation; for the empty term the stage is the identity. -/
theorem searchStage_visible_searchable_iff (term : String)
    (cols : List ColumnConfig) (vis : VisMap) (rows : List Row) (r : Row) :
    (term ≠ "" →
      (r ∈ searchStage term cols vis rows ↔
        r ∈ rows ∧ ∃ col ∈ visibleColumns cols vis, col.searchable = true ∧
          inclB term.toList (jsLower (strOfCell (r.get col.key))).toList = true)) ∧
    searchStage "" cols vis rows = rows := by
  constructor
  · intro hterm
    unfold searchStage
    rw [if_neg hterm, List.mem_filter]
    unfold searchPred
    rw [List.any_eq_true]
    constructor
    · rintro ⟨hr, col, hcol, hp⟩
      rw [Bool.and_eq_true] at hp
      exact ⟨hr, col, hcol, hp.1, hp.2⟩
    · rintro ⟨hr, col, hcol, hs, hi⟩
      exact ⟨hr, col, hcol, by rw [Bool.and_eq_true]; exact ⟨hs, hi⟩⟩
  · rfl

theorem searchStage_visible_searchable_iff_witness :
    [("a", "x1")] ∈ searchStage "x" [{ key := "a", searchable := true }]
      [("a", true)] [[("a", "x1")]] :=
  ((searchStage_visible_searchable_iff "x" [{ key := "a", searchable := true }]
      [("a", true)] [[("a", "x1")]] [("a", "x1")]).1 (by decide)).mpr
    ⟨by decide, { key := "a", searchable := true }, by decide, rfl, rfl⟩

/-- Natural ceiling division `(n + ps - 1) / ps` agrees with the rational
ceiling `⌈n / ps⌉` for positive `ps`. -/
theorem natCeilDiv_eq (n ps : Nat) (h : 0 < ps) :
    (n + ps - 1) / ps = ⌈(n : ℚ) / (ps : ℚ)⌉₊ := by
  rcases Nat.eq_zero_or_pos n with hn | hn
  · subst hn
    rw [Nat.zero_add, Nat.div_eq_of_lt (by omega)]
    simp
  · have hps : (0 : ℚ) < (ps : ℚ) := by exact_mod_cast h
    have hk1 : 1 ≤ (n + ps - 1) / ps := by
      rw [Nat.le_div_iff_mul_le h]
      omega
    have h1 := Nat.div_add_mod (n + ps - 1) ps
    have h2 := Nat.mod_lt (n + ps - 1) h
    set k := (n + ps - 1) / ps with hk
    have hn_le : n ≤ k * ps := by
      have := Nat.mul_comm ps k
      omega
    have hlt : (k - 1) * ps < n := by
      rw [Nat.sub_one_mul]
      have hmul : ps * k = k * ps := Nat.mul_comm ps k
      omega
    symm
    rw [Nat.ceil_eq_iff (by omega)]
    constructor
    · rw [lt_div_iff₀ hps]
      exact_mod_cast hlt
    · rw [div_le_iff₀ hps]
      exact_mod_cast hn_le

/-- C4: `totalPages = max(1, ceil(n / pageSize))`; a requested page above
`totalPages` is clamped down to it and a request below 1 is clamped to 1;
the emitted slice is the half-open range `[(page-1)*pageSize,
page*pageSize)` over the filtered rows, truncated at the end; in particular
for `n = 7`, `pageSize = 5`, requested page 10 the clamped page is 2,
`totalPages` is 2 and the slice is rows 5 and 6. -/
theorem pagination_clamp_slice (n ps : Nat) (req : Int) (rows : List Row)
    (p : Nat) (hps : 0 < ps) (hp : 1 ≤ p) :
    totalPagesCalc n ps = max 1 ⌈(n : ℚ) / (ps : ℚ)⌉₊ ∧
    (∀ q : Nat, q > totalPagesCalc n ps →
      clampPageEffect q (totalPagesCalc n ps) = totalPagesCalc n ps) ∧
    (req < 1 → setPageFromInput req (totalPagesCalc n ps) = 1) ∧
    pageRowsCalc rows p ps = (rows.take (p * ps)).drop ((p - 1) * ps) ∧
    (totalPagesCalc 7 5 = 2 ∧ clampPageEffect 10 (totalPagesCalc 7 5) = 2 ∧
      pageRowsCalc exRows7 2 5 = [exRow 5, exRow 6]) := by
  refine ⟨?_, ?_, ?_, ?_, by decide, by decide, by decide⟩
  · unfold totalPagesCalc
    rw [natCeilDiv_eq n ps hps]
  · intro q hq
    unfold clampPageEffect
    rw [if_pos hq]
  · intro hreq
    unfold setPageFromInput
    have htp : 1 ≤ totalPagesCalc n ps := le_max_left 1 _
    have : max 1 req = 1 := by omega
    rw [this]
    omega
  · unfold pageRowsCalc
    rw [List.drop_take]
    have hsub : p * ps - (p - 1) * ps = ps := by
      rw [Nat.sub_one_mul]
      have : ps ≤ p * ps := Nat.le_mul_of_pos_left ps hp
      omega
    rw [hsub]

theorem pagination_clamp_slice_witness :
    totalPagesCalc 7 5 = 2 ∧ clampPageEffect 10 (totalPagesCalc 7 5) = 2 ∧
      pageRowsCalc exRows7 2 5 = [exRow 5, exRow 6] :=
  (pagination_clamp_slice 7 5 0 exRows7 2 (by decide) (by decide)).2.2.2.2

/-- Membership after the insertion-ordered add loop: an element is in the
result iff it was in the accumulator or in the added list. -/
theorem foldl_setAdd_mem (L s : List Nat) (j : Nat) :
    (j ∈ L.foldl (fun acc i => if i ∈ acc then acc else acc ++ [i]) s) ↔
      j ∈ s ∨ j ∈ L := by
  induction L generalizing s with
  | nil => simp
  | cons a L ih =>
    rw [List.foldl_cons, ih, List.mem_cons]
    by_cases h : a ∈ s
    · rw [if_pos h]
      constructor
      · rintro (hs | hL)
        · exact Or.inl hs
        · exact Or.inr (Or.inr hL)
      · rintro (hs | rfl | hL)
        · exact Or.inl hs
        · exact Or.inl h
        · exact Or.inr hL
    · rw [if_neg h]
      constructor
      · rintro (hs | hL)
        · rcases List.mem_append.mp hs with hs' | hs'
          · exact Or.inl hs'
          · exact Or.inr (Or.inl (List.mem_singleton.mp hs'))
        · exact Or.inr (Or.inr hL)
      · rintro (hs | rfl | hL)
        · exact Or.inl (List.mem_append.mpr (Or.inl hs))
        · exact Or.inl (List.mem_append.mpr (Or.inr (List.mem_singleton.mpr rfl)))
        · exact Or.inr hL

theorem rangeAdd_mem (s : List Nat) (lo hi j : Nat) (h : lo ≤ hi) :
    j ∈ rangeAdd s lo hi ↔ j ∈ s ∨ (lo ≤ j ∧ j ≤ hi) := by
  rw [rangeAdd, foldl_setAdd_mem]
  have hr : j ∈ List.range' lo (hi + 1 - lo) ↔ lo ≤ j ∧ j ≤ hi := by
    rw [List.mem_range']
    constructor
    · rintro ⟨i, hi', rfl⟩
      omega
    · intro hj
      exact ⟨j - lo, by omega, by omega⟩
  rw [hr]

/-- C8: a shift-modified click on global index `i` with a non-empty
selection replaces the set by its union with the closed interval between the
anchor (the most recently inserted index) and `i`, never removing members;
concretely, plain-selecting 2 then shift-selecting 6 yields {2,3,4,5,6}, and
a subsequent plain click on 4 yields {4} alone. -/
theorem toggleRowSelection_range_union (page ps idx : Nat) (ctrl meta : Bool)
    (prev : List Nat) (h : prev ≠ []) :
    (∀ j, j ∈ toggleRowSelection page ps idx true ctrl meta prev ↔
      j ∈ prev ∨
        (min (prev.getLast h) ((page - 1) * ps + idx) ≤ j ∧
          j ≤ max (prev.getLast h) ((page - 1) * ps + idx))) ∧
    toggleRowSelection 1 5 2 false false false [] = [2] ∧
    toggleRowSelection 1 5 6 true false false
      (toggleRowSelection 1 5 2 false false false []) = [2, 3, 4, 5, 6] ∧
    toggleRowSelection 1 5 4 false false false [2, 3, 4, 5, 6] = [4] := by
  refine ⟨?_, rfl, rfl, rfl⟩
  intro j
  have hne : prev.isEmpty = false := by
    cases prev with
    | nil => exact absurd rfl h
    | cons a t => rfl
  unfold toggleRowSelection
  rw [List.getLast?_eq_getLast prev h]
  simp only [hne, Bool.not_false, Bool.and_true, if_pos rfl, Option.getD_some]
  exact rangeAdd_mem prev _ _ j (min_le_max)

theorem toggleRowSelection_range_union_witness :
    5 ∈ toggleRowSelection 1 5 6 true false false [2] :=
  ((toggleRowSelection_range_union 1 5 6 false false [2] (by decide)).1 5).mpr
    (Or.inr (by decide))

/-- Reading below the old length is unaffected by an allocation. -/
theorem Mem.read_alloc_lt (m : Mem) (v : List Row) (a : Nat)
    (h : a < m.arrays.length) : (m.alloc v).1.read a = m.read a := by
  unfold Mem.alloc Mem.read
  exact List.getD_append _ _ _ _ h

/-- Reading an address different from the written one is unaffected. -/
theorem Mem.read_write_ne (m : Mem) (b : Nat) (v : List Row) (a : Nat)
    (h : a ≠ b) : (m.write b v).read a = m.read a := by
  unfold Mem.write Mem.read
  rw [List.getD_eq_getElem?_getD, List.getD_eq_getElem?_getD,
    List.getElem?_set_ne (fun hc => h hc.symm)]

theorem Mem.alloc_length (m : Mem) (v : List Row) :
    (m.alloc v).1.arrays.length = m.arrays.length + 1 := by
  unfold Mem.alloc
  simp

/-- The base allocation of `data.slice()` establishes `MemPres`. -/
theorem memPres_alloc_base (m : Mem) (v : List Row) :
    MemPres m m.arrays.length (m.alloc v) :=
  ⟨by rw [Mem.alloc_length]; omega, Nat.le_refl _,
    fun a ha => Mem.read_alloc_lt m v a ha⟩

/-- Allocation preserves `MemPres`. -/
theorem memPres_alloc (m : Mem) (n : Nat) (p : Mem × Nat) (v : List Row)
    (hp : MemPres m n p) : MemPres m n (p.1.alloc v) := by
  obtain ⟨h1, h2, h3⟩ := hp
  refine ⟨?_, ?_, ?_⟩
  · rw [Mem.alloc_length]
    omega
  · show n ≤ p.1.arrays.length
    omega
  · intro a ha
    rw [Mem.read_alloc_lt p.1 v a (by omega), h3 a ha]

/-- The search step preserves `MemPres`. -/
theorem memPres_searchStep (m : Mem) (n : Nat) (p : Mem × Nat) (term : String)
    (cols : List ColumnConfig) (vis : VisMap) (hp : MemPres m n p) :
    MemPres m n (searchStepMem p term cols vis) := by
  unfold searchStepMem
  by_cases h : term = ""
  · rw [if_pos h]
    exact hp
  · rw [if_neg h]
    exact memPres_alloc m n p _ hp

/-- One filter entry preserves `MemPres`. -/
theorem memPres_filterEntry (m : Mem) (n : Nat) (p : Mem × Nat)
    (kc : String × List FilterCondition) (hp : MemPres m n p) :
    MemPres m n (filterEntryMem p kc) := by
  unfold filterEntryMem
  by_cases h : kc.2.isEmpty
  · rw [if_pos h]
    exact hp
  · rw [if_neg h]
    exact memPres_alloc m n p _ hp

/-- The whole filter fold preserves `MemPres`. -/
theorem memPres_filterFold (m : Mem) (n : Nat)
    (filters : List (String × List FilterCondition)) (p : Mem × Nat)
    (hp : MemPres m n p) : MemPres m n (filters.foldl filterEntryMem p) := by
  induction filters generalizing p with
  | nil => exact hp
  | cons kc rest ih =>
    rw [List.foldl_cons]
    exact ih _ (memPres_filterEntry m n p kc hp)

/-- The in-place sort writes only to the current `rows` address, which lies
at or above `n`, so reads below `n` are unaffected. -/
theorem memFrame_sortStep (m : Mem) (dataAddr : Nat) (p : Mem × Nat)
    (st : SortState) (cols : List ColumnConfig)
    (hp : MemPres m m.arrays.length p) (h : dataAddr < m.arrays.length) :
    (sortStepMem p st cols).1.read dataAddr = m.read dataAddr := by
  obtain ⟨hl, ha, hr⟩ := hp
  unfold sortStepMem
  cases st.dir with
  | none => exact hr dataAddr h
  | some d =>
    dsimp only []
    by_cases hkey : st.key = ""
    · rw [if_pos hkey]
      exact hr dataAddr h
    · rw [if_neg hkey]
      show (p.1.write p.2 _).read dataAddr = _
      rw [Mem.read_write_ne p.1 p.2 _ dataAddr (by omega)]
      exact hr dataAddr h

/-- C9: no evaluation of `filteredRows` mutates the caller-supplied record
collection: the `data` array reads the same after the pipeline (including
the in-place sort, which operates on the copy produced by `slice`) as
before. -/
theorem filteredRowsMem_frame (m : Mem) (dataAddr : Nat) (term : String)
    (cols : List ColumnConfig) (vis : VisMap)
    (filters : List (String × List FilterCondition)) (st : SortState)
    (h : dataAddr < m.arrays.length) :
    (filteredRowsMem m dataAddr term cols vis filters st).1.read dataAddr
      = m.read dataAddr :=
  memFrame_sortStep m dataAddr _ st cols
    (memPres_filterFold m _ filters _
      (memPres_searchStep m _ _ term cols vis
        (memPres_alloc_base m (m.read dataAddr)))) h

theorem filteredRowsMem_frame_witness :
    (filteredRowsMem ⟨[[[("a", "b")], [("a", "a")]]]⟩ 0 ""
        [{ key := "a", sortable := true }] [("a", true)] []
        ⟨"a", some SortDir.asc⟩).1.read 0 = [[("a", "b")], [("a", "a")]] := by
  rw [filteredRowsMem_frame ⟨[[[("a", "b")], [("a", "a")]]]⟩ 0 ""
    [{ key := "a", sortable := true }] [("a", true)] []
    ⟨"a", some SortDir.asc⟩ (by decide)]
  decide
